import Mathlib

/-!
Verification of the `node-ntwork` sequencing primitives: the promise-based
sequential orchestrator `Work` (src/work.js, the current version of the module,
lines 229-576) and the self-draining `Queue` (queue.js).

The embedding is a faithful translation of the JavaScript source:

* JavaScript values reachable by the claims are modelled by `JVal`
  (undefined, null, booleans, numbers as `Int`, strings, arrays).
* The mutable `Work` instance is a record `W`; its dynamic data properties
  (`result`, `res`, `pres`, `rres`, `err` and any property injected for a
  named step's result by `w[namedIdx] = res`) live in an association list
  `Props`, mirroring a JavaScript object's own data properties.  Prototype
  methods (`getRes`, `next`, `emit`, ...) are function-valued members and are
  listed in `isMethodName`.  The step-descriptor list `works`, the name index
  `names` and the in-flight descriptor `current` are kept in dedicated fields;
  no claim exercises reassigning these through a colliding step name, and the
  theorems that quantify over names exclude such collisions explicitly.
* A JavaScript function is a `JFun` giving its behaviour when invoked as a
  step handler (`asHandler`: settle with a value, reject, or throw
  synchronously) and when invoked as an enabled predicate (`asPred`).
* The event-loop interleaving of `works` is strictly sequential (one step in
  flight, continuation via a deferred tick), so the run is a recursive
  function `runPending` over the pending descriptor list.  It also returns
  the list of per-step events that the source logs via `debug(...)`
  (call / return / skip / rejection), which serves as the observable trace.
* The option surface modelled is `alwaysResolved` and the completion hook
  `done` (whose own promise can reject).  The pacing hook `callback` and the
  `onerror` notification do not affect any claimed observable and are left
  out of the option record; the modelled runs are those that do not configure
  them.
-/

/-- JavaScript values reachable by the claims. -/
inductive JVal where
  | vundef : JVal
  | vnull : JVal
  | vbool : Bool → JVal
  | vnum : Int → JVal
  | vstr : String → JVal
  | varr : List JVal → JVal


/-- The JavaScript `typeof` operator on a `JVal` (note `typeof null` is
`"object"`). -/
def typeofVal : JVal → String
  | JVal.vundef => "undefined"
  | JVal.vnull => "object"
  | JVal.vbool _ => "boolean"
  | JVal.vnum _ => "number"
  | JVal.vstr _ => "string"
  | JVal.varr _ => "object"

/-- Own data properties of a JavaScript object, as an insertion-ordered
association list with unique keys. -/
abbrev Props := List (String × JVal)

/-- Property read; a missing property reads as `undefined`. -/
def getProp : Props → String → JVal
  | [], _ => JVal.vundef
  | p :: rest, k => if p.fst == k then p.snd else getProp rest k

/-- Property write: update in place when the key exists (JavaScript keeps the
original insertion position), append otherwise. -/
def setProp : Props → String → JVal → Props
  | [], k, v => [(k, v)]
  | p :: rest, k, v => if p.fst == k then (k, v) :: rest else p :: setProp rest k v

/-- The outcome of invoking a step handler: the returned promise resolves,
the returned promise rejects, or the call throws synchronously. -/
inductive HandlerOutcome where
  | resolved : JVal → HandlerOutcome
  | rejected : JVal → HandlerOutcome
  | thrown : JVal → HandlerOutcome


/-- A JavaScript function value: its behaviour when invoked as a step handler
and when invoked as an enabled predicate (the predicate's result taken with
JavaScript truthiness).  Both take the data properties of the `Work` instance
passed as the `w` argument. -/
structure JFun where
  asHandler : Props → HandlerOutcome
  asPred : Props → Bool

/-- A normalized step descriptor (class `Worker` in work.js). -/
structure Worker where
  name : Option String
  idx : Nat
  handler : JFun
  enabled : Option JFun

/-- One element of a tuple-form step spec, classified by `typeof`. -/
inductive RawElem where
  | str : String → RawElem
  | fn : JFun → RawElem
  | other : JVal → RawElem

/-- A raw step spec as accepted by `Work.works`: a bare function, a tuple,
an already-constructed `Worker`, or any other value. -/
inductive RawSpec where
  | fn : JFun → RawSpec
  | arr : List RawElem → RawSpec
  | worker : Worker → RawSpec
  | other : JVal → RawSpec

/-- `typeof` of a tuple element. -/
def typeofElem : RawElem → String
  | RawElem.str _ => "string"
  | RawElem.fn _ => "function"
  | RawElem.other v => typeofVal v

/-- `typeof work[0]` for the (possibly shifted) tuple; reading past the end of
a JavaScript array yields `undefined`. -/
def typeofHead : List RawElem → String
  | [] => "undefined"
  | e :: _ => typeofElem e

/-- `Worker.create` (work.js:565-570) followed by the `Worker` constructor
(work.js:508-538).  Returns the constructed descriptor or the construction
error, together with the caller's spec after the call: a leading name string
is removed from the caller's array in place by `work.shift()`
(work.js:522), whether or not construction subsequently fails. -/
def Worker.create : RawSpec → Except String Worker × RawSpec
  | RawSpec.worker wk => (Except.ok wk, RawSpec.worker wk)
  | RawSpec.fn f => (Except.ok { name := none, idx := 0, handler := f, enabled := none }, RawSpec.fn f)
  | RawSpec.other v => (Except.error "Worker handler is required!", RawSpec.other v)
  | RawSpec.arr xs =>
      let shifted : Option String × List RawElem :=
        match xs with
        | RawElem.str s :: rest => (some s, rest)
        | _ => (none, xs)
      let nm := shifted.fst
      let xs1 := shifted.snd
      match xs1 with
      | RawElem.fn h :: rest =>
          (match rest with
           | [] => Except.ok { name := nm, idx := 0, handler := h, enabled := none }
           | RawElem.fn p :: _ => Except.ok { name := nm, idx := 0, handler := h, enabled := some p }
           | e :: _ => Except.error ("Worker state handler must be function, got " ++ typeofElem e ++ "!"),
           RawSpec.arr xs1)
      | _ => (Except.error ("Worker handler must be function, got " ++ typeofHead xs1 ++ "!"), RawSpec.arr xs1)

/-- `Worker.isEnabled` (work.js:546-548): call the enabled predicate when it
is a function, else the step is enabled. -/
def Worker.isEnabled (wk : Worker) (p : Props) : Bool :=
  match wk.enabled with
  | some f => f.asPred p
  | none => true

/-- The `works.map` loop of the `Work` constructor (work.js:241-248):
construct each descriptor, assigning positions in declaration order; a
construction error aborts the map (later elements are left untouched).
Also returns the caller's spec list after the in-place mutations. -/
def buildWorkers : List RawSpec → Nat → Except String (List Worker) × List RawSpec
  | [], _ => (Except.ok [], [])
  | s :: rest, idx =>
      match Worker.create s with
      | (Except.error e, s2) => (Except.error e, s2 :: rest)
      | (Except.ok wk, s2) =>
          match buildWorkers rest (idx + 1) with
          | (Except.error e, rest2) => (Except.error e, s2 :: rest2)
          | (Except.ok ws, rest2) => (Except.ok ({ wk with idx := idx } :: ws), s2 :: rest2)

/-- Assignment `names[nm] = i` on a JavaScript object: an existing key keeps
its insertion position, a new key is appended. -/
def setIdx : List (String × Nat) → String → Nat → List (String × Nat)
  | [], k, v => [(k, v)]
  | p :: rest, k, v => if p.fst == k then (k, v) :: rest else p :: setIdx rest k v

/-- The name index built by the `Work` constructor (work.js:244-246):
`if (worker.name) this.names[worker.name] = worker.idx` — only truthy
(non-empty) names are registered; a duplicate name overwrites the index. -/
def buildNames (ws : List Worker) : List (String × Nat) :=
  ws.foldl
    (fun acc wk =>
      match wk.name with
      | some nm => if nm == "" then acc else setIdx acc nm wk.idx
      | none => acc)
    []

/-- The run state of one `Work` instance.  `props` holds the dynamic data
properties; `names`, `works` and `current` are kept as dedicated fields (see
the header comment). -/
structure W where
  props : Props
  names : List (String × Nat)
  works : List Worker
  current : Option Worker

/-- Function-valued members of a `Work` instance: the class methods, the
`EventEmitter` prototype methods and the `Object` prototype methods. -/
def isMethodName (s : String) : Bool :=
  (["start", "next", "getRes", "getName", "emit", "on", "once", "off",
    "addListener", "removeListener", "removeAllListeners", "setMaxListeners",
    "getMaxListeners", "listeners", "rawListeners", "listenerCount",
    "prependListener", "prependOnceListener", "eventNames", "constructor",
    "hasOwnProperty", "isPrototypeOf", "propertyIsEnumerable",
    "toLocaleString", "toString", "valueOf"] : List String).contains s

/-- `typeof w[k]` for a member of the `Work` instance. -/
def W.memberTypeof (w : W) (k : String) : String :=
  if isMethodName k then "function"
  else if k == "names" || k == "works" then "object"
  else if k == "current" then
    match w.current with
    | some _ => "object"
    | none => "undefined"
  else typeofVal (getProp w.props k)

/-- `Work.getName` (work.js:299-309): the first name bound to the given
position, in insertion order, or `undefined`. -/
def W.getName (w : W) (idx : Nat) : Option String :=
  (w.names.find? (fun p => p.snd == idx)).map (fun p => p.fst)

/-- Name lookup in the name index (`this.names[idx]` in `getRes`). -/
def lookupName (names : List (String × Nat)) (s : String) : Option Nat :=
  (names.find? (fun p => p.fst == s)).map (fun p => p.snd)

/-- The numeric branch of `Work.getRes` (work.js:287-290): bounds-check the
index against `this.result.length`, then read the slot.  When `result` has
been reassigned to a non-array value, `.length` follows JavaScript: strings
keep a length, other primitives make the bound comparison false and the
indexed read yields `undefined` (or throws a `TypeError` on `null` /
`undefined`). -/
def getResIdx (w : W) (i : Int) : Except String JVal :=
  if i < 0 then Except.error "Index is out of bound!"
  else
    match getProp w.props "result" with
    | JVal.varr xs =>
        if (xs.length : Int) ≤ i then Except.error "Index is out of bound!"
        else Except.ok (xs.getD i.toNat JVal.vundef)
    | JVal.vstr s =>
        if (s.length : Int) ≤ i then Except.error "Index is out of bound!"
        else Except.ok (JVal.vstr (String.mk [s.toList.getD i.toNat ' ']))
    | JVal.vnull => Except.error "TypeError: cannot read properties of null"
    | JVal.vundef => Except.error "TypeError: cannot read properties of undefined"
    | _ => Except.ok JVal.vundef

/-- `Work.getRes` (work.js:279-291): a string index is resolved through the
name index first (unknown name throws), then both forms share the
bounds-checked positional read. -/
def W.getRes (w : W) : String ⊕ Int → Except String JVal
  | Sum.inl s =>
      match lookupName w.names s with
      | none => Except.error ("Named index " ++ s ++ " does not exist!")
      | some i => getResIdx w (Int.ofNat i)
  | Sum.inr i => getResIdx w i

/-- Outcome of the completion hook's own promise. -/
inductive DoneRes where
  | ok : DoneRes
  | fail : JVal → DoneRes

/-- The modelled options of `Work.works` (work.js:323-336): `alwaysResolved`
and the completion hook `done` (awaited on every exit path; its rejection
rejects the run). -/
structure Options where
  alwaysResolved : Bool
  done : Option (Props → JVal → DoneRes)

/-- The configured completion hook never fails. -/
def DoneOk (opts : Options) : Prop :=
  ∀ d, opts.done = some d → ∀ p e, d p e = DoneRes.ok

/-- The `always` handler (work.js:343-351): await `options.done` when it is a
function, else succeed immediately. -/
def doAlways (opts : Options) (p : Props) (err : JVal) : DoneRes :=
  match opts.done with
  | some d => d p err
  | none => DoneRes.ok

/-- Settlement of the promise returned by `Work.works`. -/
inductive Settlement where
  | resolved : JVal → Settlement
  | rejected : JVal → Settlement


/-- The per-step events the source logs via `debug(...)`: handler invocation,
handler resolution, skip, and failure (`stop`). -/
inductive Ev where
  | called : Nat → Ev
  | produced : Nat → JVal → Ev
  | skipped : Nat → Ev
  | failed : Nat → JVal → Ev


/-- Result of driving a run: the event trace, and the settlement with the
final instance state — `none` when the promise never settles (reachable only
when an exception escapes inside a `.then` continuation). -/
structure RunOut where
  trace : List Ev
  settled : Option (Settlement × W)

/-- The state updates of the `next` handler (work.js:358-367): push the
result, shift `pres`/`res`, and expose the result under the step's name
unless the member currently holding that name is function-valued
(`typeof w[namedIdx] !== 'function'`).  `w.result.push` throws a `TypeError`
when `result` has been reassigned to a non-array. -/
def nextAssign (w : W) (idx : Nat) (res : JVal) : Except JVal W :=
  match getProp w.props "result" with
  | JVal.varr xs =>
      let p1 := setProp w.props "result" (JVal.varr (xs ++ [res]))
      let p2 := setProp p1 "pres" (getProp p1 "res")
      let p3 := setProp p2 "res" res
      let w1 : W := { w with props := p3 }
      match W.getName w1 idx with
      | some nm =>
          if nm == "" then Except.ok w1
          else if W.memberTypeof w1 nm == "function" then Except.ok w1
          else Except.ok { w1 with props := setProp w1.props nm res }
      | none => Except.ok w1
  | _ => Except.error (JVal.vstr "TypeError: w.result.push is not a function")

/-- The `stop` handler (work.js:393-411): capture the failure, await the
completion hook (its rejection rejects the run), then resolve with no value
under `alwaysResolved` or reject with the original reason. -/
def runStop (opts : Options) (w : W) (err : JVal) : Settlement × W :=
  let w1 : W := { w with props := setProp w.props "err" err }
  match doAlways opts w1.props err with
  | DoneRes.fail e => (Settlement.rejected e, w1)
  | DoneRes.ok =>
      if opts.alwaysResolved then (Settlement.resolved JVal.vundef, w1)
      else (Settlement.rejected err, w1)

/-- The resolution path of `nnext` when no work remains (work.js:368-375):
await the completion hook, then resolve with `w.rres`. -/
def runFinalize (opts : Options) (w : W) : Settlement × W :=
  match doAlways opts w.props JVal.vundef with
  | DoneRes.fail e => (Settlement.rejected e, w)
  | DoneRes.ok => (Settlement.resolved (getProp w.props "rres"), w)

/-- The worker main handler `f` (work.js:417-444) iterated over the pending
descriptors: evaluate the enabled predicate; on skip record the null marker
via `next` (a synchronous throw there is caught and routed to `stop`); on an
enabled step invoke the handler — resolution sets `w.rres` and goes through
`next` (a throw inside the `.then` leaves the promise unsettled), rejection
and synchronous throw both go to `stop`.  When no descriptor remains after a
settled step, finalize; otherwise continue with the next descriptor. -/
def runPending (opts : Options) (wk : Worker) (pending : List Worker) (w0 : W) : RunOut :=
  let w : W := { w0 with current := some wk, works := pending }
  if wk.isEnabled w.props then
    match wk.handler.asHandler w.props with
    | HandlerOutcome.thrown e =>
        { trace := [Ev.called wk.idx, Ev.failed wk.idx e], settled := some (runStop opts w e) }
    | HandlerOutcome.rejected e =>
        { trace := [Ev.called wk.idx, Ev.failed wk.idx e], settled := some (runStop opts w e) }
    | HandlerOutcome.resolved v =>
        let w1 : W := { w with props := setProp w.props "rres" v }
        match nextAssign w1 wk.idx v with
        | Except.error _ =>
            { trace := [Ev.called wk.idx, Ev.produced wk.idx v], settled := none }
        | Except.ok w2 =>
            match pending with
            | [] => { trace := [Ev.called wk.idx, Ev.produced wk.idx v],
                      settled := some (runFinalize opts w2) }
            | wk2 :: rest =>
                let r := runPending opts wk2 rest w2
                { trace := Ev.called wk.idx :: Ev.produced wk.idx v :: r.trace,
                  settled := r.settled }
  else
    match nextAssign w wk.idx JVal.vnull with
    | Except.error te =>
        { trace := [Ev.skipped wk.idx, Ev.failed wk.idx te], settled := some (runStop opts w te) }
    | Except.ok w2 =>
        match pending with
        | [] => { trace := [Ev.skipped wk.idx], settled := some (runFinalize opts w2) }
        | wk2 :: rest =>
            let r := runPending opts wk2 rest w2
            { trace := Ev.skipped wk.idx :: r.trace, settled := r.settled }

/-- How a call to `Work.works` ends for the caller: a synchronous exception
escaping the call itself, a promise that settles, or a promise that never
settles. -/
inductive WorksResult where
  | thrown : String → WorksResult
  | settled : Settlement → W → WorksResult
  | unsettled : WorksResult

/-- The full observable outcome of one `Work.works(workers, options)` call:
how it ended, the event trace, and the caller's spec list after the in-place
normalization mutations. -/
structure WorksOut where
  result : WorksResult
  trace : List Ev
  specsAfter : List RawSpec

/-- `Work.works` (work.js:323-456): `new this(workers)` runs before the
promise is created, so a construction error escapes the call synchronously;
an empty list resolves with no value after the completion hook; otherwise the
descriptors are driven one at a time. -/
def Work.works (specs : List RawSpec) (opts : Options) : WorksOut :=
  match buildWorkers specs 0 with
  | (Except.error e, specs2) => { result := WorksResult.thrown e, trace := [], specsAfter := specs2 }
  | (Except.ok ws, specs2) =>
      let w : W := { props := [("result", JVal.varr [])], names := buildNames ws,
                     works := ws, current := none }
      match ws with
      | [] =>
          match doAlways opts w.props JVal.vundef with
          | DoneRes.ok =>
              { result := WorksResult.settled (Settlement.resolved JVal.vundef) w,
                trace := [], specsAfter := specs2 }
          | DoneRes.fail e =>
              { result := WorksResult.settled (Settlement.rejected e) w,
                trace := [], specsAfter := specs2 }
      | wk :: rest =>
          let r := runPending opts wk rest w
          match r.settled with
          | some sw => { result := WorksResult.settled sw.fst sw.snd,
                         trace := r.trace, specsAfter := specs2 }
          | none => { result := WorksResult.unsettled, trace := r.trace, specsAfter := specs2 }

/-- The settlement of the promise returned by a `works` call, if any. -/
def WorksOut.settle : WorksOut → Option Settlement
  | { result := WorksResult.settled st _, .. } => some st
  | _ => none

/-- The final instance properties of a settled `works` call. -/
def WorksOut.finalProps : WorksOut → Option Props
  | { result := WorksResult.settled _ w, .. } => some w.props
  | _ => none

/-- Whether the `works` call threw synchronously. -/
def WorksOut.threw : WorksOut → Bool
  | { result := WorksResult.thrown _, .. } => true
  | _ => false

/-- The admission-check field of a `Queue`: absent (`undefined`), present but
not callable, or callable with the result it returns at the moment of the
current `next()` invocation. -/
inductive CheckSpec where
  | absent : CheckSpec
  | notCallable : CheckSpec
  | callable : Bool → CheckSpec

/-- `typeof this.check === 'function' && !this.check()` (queue.js:204). -/
def checkBlocks : CheckSpec → Bool
  | CheckSpec.callable b => !b
  | _ => false

/-- State of a `Queue` instance (queue.js:163-176): the pending items, the
`pending` pause flag, the in-flight item (`this.queue`, `null` when idle),
and the admission check. -/
structure QueueSt (α : Type) where
  queues : List α
  pending : Bool
  queue : Option α
  check : CheckSpec

/-- What one `next()` invocation does beyond its state update: schedule a
deferred retry (`nn()`), schedule the handler with the consumed item
(`consume`), or emit `done`. -/
inductive NextAction (α : Type) where
  | retryLater : NextAction α
  | consumed : α → NextAction α
  | signalDone : NextAction α

/-- `Queue.next` (queue.js:195-211): with pending items, a set `pending` flag
or a callable check returning false only schedules a deferred retry and
returns without consuming anything; otherwise the front item is shifted and
handed to the handler (becoming the in-flight item).  With no pending items,
`done` is emitted and the in-flight slot is cleared. -/
def QueueSt.next {α : Type} (q : QueueSt α) : NextAction α × QueueSt α :=
  match q.queues with
  | [] => (NextAction.signalDone, { q with queue := none })
  | it :: rest =>
      if q.pending || checkBlocks q.check then (NextAction.retryLater, q)
      else (NextAction.consumed it, { q with queues := rest, queue := some it })

/-- `Queue.clear` (queue.js:216-218). -/
def QueueSt.clear {α : Type} (q : QueueSt α) : QueueSt α :=
  { q with queues := [] }

/-- `Queue.requeue` (queue.js:236-246): record whether the queue was idle
(no pending items and `this.queue === null`), prepend or append the new
items, and invoke `next()` only when it was idle. -/
def QueueSt.requeue {α : Type} (q : QueueSt α) (items : List α) (top : Bool) :
    Option (NextAction α) × QueueSt α :=
  let processNext := q.queues.isEmpty && q.queue.isNone
  let q2 : QueueSt α := { q with queues := if top then items ++ q.queues else q.queues ++ items }
  if processNext then
    let r := q2.next
    (some r.fst, r.snd)
  else (none, q2)

/-- The position a trace event belongs to. -/
def evIdx : Ev → Nat
  | Ev.called i => i
  | Ev.produced i _ => i
  | Ev.skipped i => i
  | Ev.failed i _ => i

/-- The values pushed onto `result` by the events of a trace: a produced
value for a handler resolution, the `null` skip marker for a skip. -/
def settledVals : List Ev → List JVal
  | [] => []
  | Ev.produced _ v :: tr => v :: settledVals tr
  | Ev.skipped _ :: tr => JVal.vnull :: settledVals tr
  | _ :: tr => settledVals tr

/-- The values produced by handler resolutions in a trace. -/
def producedVals : List Ev → List JVal
  | [] => []
  | Ev.produced _ v :: tr => v :: producedVals tr
  | _ :: tr => producedVals tr

/-- Whether a trace contains a failure event. -/
def hasFail : List Ev → Bool
  | [] => false
  | Ev.failed _ _ :: _ => true
  | _ :: tr => hasFail tr

/-- Last element of a list, with a default for the empty list. -/
def lastD : List JVal → JVal → JVal
  | [], d => d
  | x :: xs, _ => lastD xs x

/-- Data-valued members of the run state that the orchestrator itself reads
or writes (work.js middle version): the results list, the `res`/`pres`/`rres`
registers, the captured failure, the name index, the descriptor list, the
in-flight descriptor, the pause flag and the `getName` caches. -/
def reservedDataNames : List String :=
  ["result", "res", "pres", "rres", "err", "names", "works", "current",
   "pending", "_indices", "_names"]

/-- A name index is collision-free when no registered step name is one of the
orchestrator's own data-valued members (dynamic attribute injection would
overwrite that member; see claim C2). -/
def NamesGood (names : List (String × Nat)) : Bool :=
  names.all (fun p => !(reservedDataNames.contains p.fst))

/-- Whether constructing a descriptor from this spec throws. -/
def createFails (s : RawSpec) : Bool :=
  match Worker.create s with
  | (Except.error _, _) => true
  | _ => false

/-- The caller's spec after the `Worker` constructor has run on it. -/
def specAfter (s : RawSpec) : RawSpec :=
  (Worker.create s).snd

/-- A handler resolving with the given value. -/
def jh (v : JVal) : JFun :=
  { asHandler := fun _ => HandlerOutcome.resolved v, asPred := fun _ => true }

/-- A handler rejecting with the given reason. -/
def jreject (e : JVal) : JFun :=
  { asHandler := fun _ => HandlerOutcome.rejected e, asPred := fun _ => true }

/-- A handler throwing synchronously with the given reason. -/
def jthrow (e : JVal) : JFun :=
  { asHandler := fun _ => HandlerOutcome.thrown e, asPred := fun _ => true }

/-- An enabled predicate that is constantly false. -/
def jpredFalse : JFun :=
  { asHandler := fun _ => HandlerOutcome.resolved JVal.vundef, asPred := fun _ => false }

/-- The predicate `w => w.getRes(0) < 1` of the skip scenario, reading slot 0
of the results list. -/
def jpredRes0Lt1 : JFun :=
  { asHandler := fun _ => HandlerOutcome.resolved JVal.vundef,
    asPred := fun p =>
      match getProp p "result" with
      | JVal.varr xs =>
          match xs.getD 0 JVal.vundef with
          | JVal.vnum n => decide (n < 1)
          | _ => false
      | _ => false }

/-- Default options: no flags, no hooks. -/
def opts0 : Options := { alwaysResolved := false, done := none }

/-- Options with `alwaysResolved` set. -/
def optsAR : Options := { alwaysResolved := true, done := none }

/-- Options with `alwaysResolved` set and a completion hook whose own promise
rejects. -/
def optsARDoneFail : Options :=
  { alwaysResolved := true, done := some (fun _ _ => DoneRes.fail (JVal.vstr "done failed")) }

/-- A malformed step spec: a tuple whose only element is not callable. -/
def badSpec : RawSpec := RawSpec.arr [RawElem.other JVal.vnull]

/-- Step list of the C2 counterexample: a single step named `result`. -/
def cex2Specs : List RawSpec :=
  [RawSpec.arr [RawElem.str "result", RawElem.fn (jh (JVal.vnum 5))]]

/-- Step list of the C3 counterexample: a single rejecting step. -/
def cex3Specs : List RawSpec := [RawSpec.fn (jreject (JVal.vstr "boom"))]

/-- Step list of the C5 counterexample: a first step resolving 1 and a
skipped second step named `rres` (colliding with the register that holds the
value the run resolves with). -/
def cex5Specs : List RawSpec :=
  [RawSpec.fn (jh (JVal.vnum 1)),
   RawSpec.arr [RawElem.str "rres", RawElem.fn (jh (JVal.vnum 2)), RawElem.fn jpredFalse]]

/-- Step list of the skip scenario of claim C5: `[h1, [h2, pred]]` with `h1`
resolving 1 and `pred = w => w.getRes(0) < 1`. -/
def scen5Specs : List RawSpec :=
  [RawSpec.fn (jh (JVal.vnum 1)),
   RawSpec.arr [RawElem.fn (jh (JVal.vnum 2)), RawElem.fn jpredRes0Lt1]]

/-- Initial run state built by the `Work` constructor for a descriptor
list. -/
abbrev initW (ws : List Worker) : W :=
  { props := [("result", JVal.varr [])], names := buildNames ws, works := ws, current := none }

/-- Run state fixture for the result-lookup witness: two processed results,
both steps named. -/
def wit7W : W :=
  { props := [("result", JVal.varr [JVal.vnum 10, JVal.vnum 20])],
    names := [("a", 0), ("b", 1)], works := [], current := none }

/-- A paused queue with pending items. -/
def wit9Q : QueueSt Nat :=
  { queues := [1, 2], pending := true, queue := none, check := CheckSpec.absent }

/-- A queue whose admission-check field holds a non-callable value. -/
def wit9Q2 : QueueSt Nat :=
  { queues := [1, 2], pending := false, queue := none, check := CheckSpec.notCallable }

/-- An idle queue: nothing pending, nothing in flight. -/
def wit8Idle : QueueSt Nat :=
  { queues := [], pending := false, queue := none, check := CheckSpec.absent }

/-- A busy queue: an item in flight and one pending. -/
def wit8Busy : QueueSt Nat :=
  { queues := [7], pending := false, queue := some 5, check := CheckSpec.absent }

/-- A spec list with one named tuple step. -/
def wit10Specs : List RawSpec :=
  [RawSpec.arr [RawElem.str "alpha", RawElem.fn (jh (JVal.vnum 4))]]

/-- Run state fixture for the named-exposure witness: step 0 named `value`
(fresh), step 1 named `getRes` (a method name). -/
def wit2W : W :=
  { props := [("result", JVal.varr [])],
    names := [("value", 0), ("getRes", 1)], works := [], current := none }

/-- The state after `next(0, 9)` on `wit2W`. -/
def wit2W2 : W :=
  { props := [("result", JVal.varr [JVal.vnum 9]), ("pres", JVal.vundef),
              ("res", JVal.vnum 9), ("value", JVal.vnum 9)],
    names := [("value", 0), ("getRes", 1)], works := [], current := none }

/-- Step list with a single rejecting step, for the suppressed-failure
witnesses. -/
def cex4Specs : List RawSpec := [RawSpec.fn (jreject (JVal.vstr "boom"))]

/-- A descriptor whose handler throws synchronously. -/
def wkThrow0 : Worker :=
  { name := none, idx := 0, handler := jthrow (JVal.vstr "x"), enabled := none }

/-- A descriptor whose handler rejects with the same reason. -/
def wkRej0 : Worker :=
  { name := none, idx := 0, handler := jreject (JVal.vstr "x"), enabled := none }

/-- A disabled descriptor (enabled predicate constantly false). -/
def wit6wk : Worker :=
  { name := none, idx := 0, handler := jh (JVal.vnum 3), enabled := some jpredFalse }

/-- An enabled descriptor at position 1. -/
def wit6wk2 : Worker :=
  { name := none, idx := 1, handler := jh (JVal.vnum 4), enabled := none }

/-- Step list with three steps, the middle one skipped. -/
def wit3Specs : List RawSpec :=
  [RawSpec.fn (jh (JVal.vnum 1)),
   RawSpec.arr [RawElem.fn (jh (JVal.vnum 2)), RawElem.fn jpredFalse],
   RawSpec.fn (jh (JVal.vnum 3))]

/-- The descriptors built from `wit3Specs`. -/
def wit3WS : List Worker :=
  [{ name := none, idx := 0, handler := jh (JVal.vnum 1), enabled := none },
   { name := none, idx := 1, handler := jh (JVal.vnum 2), enabled := some jpredFalse },
   { name := none, idx := 2, handler := jh (JVal.vnum 3), enabled := none }]

/-- The descriptors built from `scen5Specs`. -/
def scen5WS : List Worker :=
  [{ name := none, idx := 0, handler := jh (JVal.vnum 1), enabled := none },
   { name := none, idx := 1, handler := jh (JVal.vnum 2), enabled := some jpredRes0Lt1 }]

theorem getProp_setProp_same (ps : Props) (k : String) (v : JVal) :
    getProp (setProp ps k v) k = v := by
  induction ps with
  | nil => simp [setProp, getProp]
  | cons p rest ih =>
      by_cases h : p.fst = k
      · simp [setProp, getProp, h]
      · simp only [setProp, getProp, beq_iff_eq, h, if_false]
        exact ih

theorem getProp_setProp_diff (ps : Props) (k k' : String) (v : JVal) (h : k' ≠ k) :
    getProp (setProp ps k v) k' = getProp ps k' := by
  induction ps with
  | nil => simp [setProp, getProp, beq_iff_eq, Ne.symm h]
  | cons p rest ih =>
      by_cases hp : p.fst = k
      · simp [setProp, getProp, beq_iff_eq, hp, Ne.symm h]
      · simp only [setProp, getProp, beq_iff_eq, hp, if_false]
        by_cases hp' : p.fst = k'
        · simp [hp']
        · simp [hp', ih]

theorem doAlways_ok (opts : Options) (p : Props) (e : JVal) (h : DoneOk opts) :
    doAlways opts p e = DoneRes.ok := by
  unfold doAlways
  cases hd : opts.done with
  | none => rfl
  | some d => exact h d hd p e

theorem getName_mem (w : W) (idx : Nat) (nm : String)
    (h : W.getName w idx = some nm) : ∃ i, (nm, i) ∈ w.names := by
  unfold W.getName at h
  cases hf : w.names.find? (fun p => p.snd == idx) with
  | none => rw [hf] at h; simp at h
  | some pr =>
      rw [hf] at h
      simp only [Option.map_some'] at h
      refine ⟨pr.snd, ?_⟩
      have hm := List.mem_of_find?_eq_some hf
      have h1 : pr.fst = nm := Option.some.inj h
      rw [← h1, Prod.mk.eta]
      exact hm

theorem namesGood_not_reserved (names : List (String × Nat)) (nm : String) (i : Nat)
    (hg : NamesGood names = true) (hm : (nm, i) ∈ names) :
    reservedDataNames.contains nm = false := by
  unfold NamesGood at hg
  have := List.all_eq_true.mp hg (nm, i) hm
  simpa using this

theorem not_reserved_facts (nm : String)
    (h : reservedDataNames.contains nm = false) :
    nm ≠ "result" ∧ nm ≠ "rres" := by
  constructor <;> intro he <;> subst he <;> exact absurd h (by decide)

theorem nextAssign_ok (w : W) (idx : Nat) (res : JVal) (xs : List JVal)
    (hg : NamesGood w.names = true)
    (hr : getProp w.props "result" = JVal.varr xs) :
    ∃ w2, nextAssign w idx res = Except.ok w2 ∧
      getProp w2.props "result" = JVal.varr (xs ++ [res]) ∧
      getProp w2.props "rres" = getProp w.props "rres" ∧
      w2.names = w.names := by
  unfold nextAssign
  rw [hr]
  simp only []
  split
  · next nm hnm =>
      split
      · refine ⟨_, rfl, ?_, ?_, rfl⟩
        · rw [getProp_setProp_diff _ _ _ _ (by decide),
              getProp_setProp_diff _ _ _ _ (by decide), getProp_setProp_same]
        · rw [getProp_setProp_diff _ _ _ _ (by decide),
              getProp_setProp_diff _ _ _ _ (by decide),
              getProp_setProp_diff _ _ _ _ (by decide)]
      · split
        · refine ⟨_, rfl, ?_, ?_, rfl⟩
          · rw [getProp_setProp_diff _ _ _ _ (by decide),
                getProp_setProp_diff _ _ _ _ (by decide), getProp_setProp_same]
          · rw [getProp_setProp_diff _ _ _ _ (by decide),
                getProp_setProp_diff _ _ _ _ (by decide),
                getProp_setProp_diff _ _ _ _ (by decide)]
        · obtain ⟨i, hmem⟩ := getName_mem _ idx nm hnm
          have hres := not_reserved_facts nm (namesGood_not_reserved w.names nm i hg hmem)
          refine ⟨_, rfl, ?_, ?_, rfl⟩
          · rw [getProp_setProp_diff _ _ _ _ (Ne.symm hres.1),
                getProp_setProp_diff _ _ _ _ (by decide),
                getProp_setProp_diff _ _ _ _ (by decide), getProp_setProp_same]
          · rw [getProp_setProp_diff _ _ _ _ (Ne.symm hres.2),
                getProp_setProp_diff _ _ _ _ (by decide),
                getProp_setProp_diff _ _ _ _ (by decide),
                getProp_setProp_diff _ _ _ _ (by decide)]
  · refine ⟨_, rfl, ?_, ?_, rfl⟩
    · rw [getProp_setProp_diff _ _ _ _ (by decide),
          getProp_setProp_diff _ _ _ _ (by decide), getProp_setProp_same]
    · rw [getProp_setProp_diff _ _ _ _ (by decide),
          getProp_setProp_diff _ _ _ _ (by decide),
          getProp_setProp_diff _ _ _ _ (by decide)]

theorem runStop_eq (opts : Options) (w : W) (err : JVal) (h : DoneOk opts) :
    runStop opts w err =
      ((if opts.alwaysResolved then Settlement.resolved JVal.vundef
        else Settlement.rejected err),
       { w with props := setProp w.props "err" err }) := by
  simp only [runStop]
  rw [doAlways_ok _ _ _ h]
  cases hA : opts.alwaysResolved <;> simp [hA]

theorem runFinalize_eq (opts : Options) (w : W) (h : DoneOk opts) :
    runFinalize opts w = (Settlement.resolved (getProp w.props "rres"), w) := by
  simp only [runFinalize]
  rw [doAlways_ok _ _ _ h]


theorem runPending_thrown (opts : Options) (wk : Worker) (pending : List Worker) (w : W)
    (e : JVal)
    (hen : wk.isEnabled w.props = true)
    (hh : wk.handler.asHandler w.props = HandlerOutcome.thrown e) :
    runPending opts wk pending w =
      { trace := [Ev.called wk.idx, Ev.failed wk.idx e],
        settled := some (runStop opts { w with current := some wk, works := pending } e) } := by
  rw [runPending.eq_def]
  simp only [hen, hh, if_true]

theorem runPending_rejected (opts : Options) (wk : Worker) (pending : List Worker) (w : W)
    (e : JVal)
    (hen : wk.isEnabled w.props = true)
    (hh : wk.handler.asHandler w.props = HandlerOutcome.rejected e) :
    runPending opts wk pending w =
      { trace := [Ev.called wk.idx, Ev.failed wk.idx e],
        settled := some (runStop opts { w with current := some wk, works := pending } e) } := by
  rw [runPending.eq_def]
  simp only [hen, hh, if_true]

theorem runPending_resolved_err (opts : Options) (wk : Worker) (pending : List Worker)
    (w : W) (v te : JVal)
    (hen : wk.isEnabled w.props = true)
    (hh : wk.handler.asHandler w.props = HandlerOutcome.resolved v)
    (hna : nextAssign { w with props := setProp w.props "rres" v, current := some wk,
                               works := pending } wk.idx v = Except.error te) :
    runPending opts wk pending w =
      { trace := [Ev.called wk.idx, Ev.produced wk.idx v], settled := none } := by
  rw [runPending.eq_def]
  simp only [hen, hh, hna, if_true]

theorem runPending_resolved_nil (opts : Options) (wk : Worker) (w w2 : W) (v : JVal)
    (hen : wk.isEnabled w.props = true)
    (hh : wk.handler.asHandler w.props = HandlerOutcome.resolved v)
    (hna : nextAssign { w with props := setProp w.props "rres" v, current := some wk,
                               works := ([] : List Worker) } wk.idx v = Except.ok w2) :
    runPending opts wk [] w =
      { trace := [Ev.called wk.idx, Ev.produced wk.idx v],
        settled := some (runFinalize opts w2) } := by
  rw [runPending.eq_def]
  simp only [hen, hh, hna, if_true]

theorem runPending_resolved_cons (opts : Options) (wk wk2 : Worker) (rest : List Worker)
    (w w2 : W) (v : JVal)
    (hen : wk.isEnabled w.props = true)
    (hh : wk.handler.asHandler w.props = HandlerOutcome.resolved v)
    (hna : nextAssign { w with props := setProp w.props "rres" v, current := some wk,
                               works := wk2 :: rest } wk.idx v = Except.ok w2) :
    runPending opts wk (wk2 :: rest) w =
      { trace := Ev.called wk.idx :: Ev.produced wk.idx v :: (runPending opts wk2 rest w2).trace,
        settled := (runPending opts wk2 rest w2).settled } := by
  rw [runPending.eq_def]
  simp only [hen, hh, hna, if_true]

theorem runPending_skip_err (opts : Options) (wk : Worker) (pending : List Worker)
    (w : W) (te : JVal)
    (hen : wk.isEnabled w.props = false)
    (hna : nextAssign { w with current := some wk, works := pending } wk.idx JVal.vnull
            = Except.error te) :
    runPending opts wk pending w =
      { trace := [Ev.skipped wk.idx, Ev.failed wk.idx te],
        settled := some (runStop opts { w with current := some wk, works := pending } te) } := by
  rw [runPending.eq_def]
  simp only [hen, hna, Bool.false_eq_true, if_false]

theorem runPending_skip_nil (opts : Options) (wk : Worker) (w w2 : W)
    (hen : wk.isEnabled w.props = false)
    (hna : nextAssign { w with current := some wk, works := ([] : List Worker) } wk.idx
            JVal.vnull = Except.ok w2) :
    runPending opts wk [] w =
      { trace := [Ev.skipped wk.idx], settled := some (runFinalize opts w2) } := by
  rw [runPending.eq_def]
  simp only [hen, hna, Bool.false_eq_true, if_false]

theorem runPending_skip_cons (opts : Options) (wk wk2 : Worker) (rest : List Worker)
    (w w2 : W)
    (hen : wk.isEnabled w.props = false)
    (hna : nextAssign { w with current := some wk, works := wk2 :: rest } wk.idx JVal.vnull
            = Except.ok w2) :
    runPending opts wk (wk2 :: rest) w =
      { trace := Ev.skipped wk.idx :: (runPending opts wk2 rest w2).trace,
        settled := (runPending opts wk2 rest w2).settled } := by
  rw [runPending.eq_def]
  simp only [hen, hna, Bool.false_eq_true, if_false]

theorem trace_idx : ∀ (pending : List Worker) (opts : Options) (wk : Worker) (w : W)
    (e : Ev), e ∈ (runPending opts wk pending w).trace →
    evIdx e ∈ wk.idx :: pending.map Worker.idx := by
  intro pending
  induction pending with
  | nil =>
      intro opts wk w e he
      cases hen : wk.isEnabled w.props with
      | true =>
          cases hh : wk.handler.asHandler w.props with
          | thrown e2 =>
              rw [runPending_thrown opts wk [] w e2 hen hh] at he
              simp only [List.mem_cons, List.not_mem_nil, or_false] at he
              rcases he with rfl | rfl <;> simp [evIdx]
          | rejected e2 =>
              rw [runPending_rejected opts wk [] w e2 hen hh] at he
              simp only [List.mem_cons, List.not_mem_nil, or_false] at he
              rcases he with rfl | rfl <;> simp [evIdx]
          | resolved v =>
              cases hna : nextAssign { w with props := setProp w.props "rres" v, current := some wk, works := ([] : List Worker) } wk.idx v with
              | error te =>
                  rw [runPending_resolved_err opts wk [] w v te hen hh hna] at he
                  simp only [List.mem_cons, List.not_mem_nil, or_false] at he
                  rcases he with rfl | rfl <;> simp [evIdx]
              | ok w2 =>
                  rw [runPending_resolved_nil opts wk w w2 v hen hh hna] at he
                  simp only [List.mem_cons, List.not_mem_nil, or_false] at he
                  rcases he with rfl | rfl <;> simp [evIdx]
      | false =>
          cases hna : nextAssign { w with current := some wk, works := ([] : List Worker) } wk.idx JVal.vnull with
          | error te =>
              rw [runPending_skip_err opts wk [] w te hen hna] at he
              simp only [List.mem_cons, List.not_mem_nil, or_false] at he
              rcases he with rfl | rfl <;> simp [evIdx]
          | ok w2 =>
              rw [runPending_skip_nil opts wk w w2 hen hna] at he
              simp only [List.mem_cons, List.not_mem_nil, or_false] at he
              rcases he with rfl
              simp [evIdx]
  | cons wk2 rest ih =>
      intro opts wk w e he
      cases hen : wk.isEnabled w.props with
      | true =>
          cases hh : wk.handler.asHandler w.props with
          | thrown e2 =>
              rw [runPending_thrown opts wk (wk2 :: rest) w e2 hen hh] at he
              simp only [List.mem_cons, List.not_mem_nil, or_false] at he
              rcases he with rfl | rfl <;> simp [evIdx]
          | rejected e2 =>
              rw [runPending_rejected opts wk (wk2 :: rest) w e2 hen hh] at he
              simp only [List.mem_cons, List.not_mem_nil, or_false] at he
              rcases he with rfl | rfl <;> simp [evIdx]
          | resolved v =>
              cases hna : nextAssign { w with props := setProp w.props "rres" v, current := some wk, works := wk2 :: rest } wk.idx v with
              | error te =>
                  rw [runPending_resolved_err opts wk (wk2 :: rest) w v te hen hh hna] at he
                  simp only [List.mem_cons, List.not_mem_nil, or_false] at he
                  rcases he with rfl | rfl <;> simp [evIdx]
              | ok w2 =>
                  rw [runPending_resolved_cons opts wk wk2 rest w w2 v hen hh hna] at he
                  simp only [List.mem_cons] at he
                  rcases he with rfl | rfl | he
                  · simp [evIdx]
                  · simp [evIdx]
                  · have hin := ih opts wk2 w2 e he
                    simp only [List.map_cons]
                    exact List.mem_cons_of_mem _ hin
      | false =>
          cases hna : nextAssign { w with current := some wk, works := wk2 :: rest } wk.idx JVal.vnull with
          | error te =>
              rw [runPending_skip_err opts wk (wk2 :: rest) w te hen hna] at he
              simp only [List.mem_cons, List.not_mem_nil, or_false] at he
              rcases he with rfl | rfl <;> simp [evIdx]
          | ok w2 =>
              rw [runPending_skip_cons opts wk wk2 rest w w2 hen hna] at he
              simp only [List.mem_cons] at he
              rcases he with rfl | he
              · simp [evIdx]
              · have hin := ih opts wk2 w2 e he
                simp only [List.map_cons]
                exact List.mem_cons_of_mem _ hin

theorem settledVals_nil : settledVals [] = [] := rfl

theorem settledVals_called (i : Nat) (tr : List Ev) :
    settledVals (Ev.called i :: tr) = settledVals tr := rfl

theorem settledVals_produced (i : Nat) (v : JVal) (tr : List Ev) :
    settledVals (Ev.produced i v :: tr) = v :: settledVals tr := rfl

theorem settledVals_skipped (i : Nat) (tr : List Ev) :
    settledVals (Ev.skipped i :: tr) = JVal.vnull :: settledVals tr := rfl

theorem settledVals_failed (i : Nat) (e : JVal) (tr : List Ev) :
    settledVals (Ev.failed i e :: tr) = settledVals tr := rfl

theorem producedVals_nil : producedVals [] = [] := rfl

theorem producedVals_called (i : Nat) (tr : List Ev) :
    producedVals (Ev.called i :: tr) = producedVals tr := rfl

theorem producedVals_produced (i : Nat) (v : JVal) (tr : List Ev) :
    producedVals (Ev.produced i v :: tr) = v :: producedVals tr := rfl

theorem producedVals_skipped (i : Nat) (tr : List Ev) :
    producedVals (Ev.skipped i :: tr) = producedVals tr := rfl

theorem producedVals_failed (i : Nat) (e : JVal) (tr : List Ev) :
    producedVals (Ev.failed i e :: tr) = producedVals tr := rfl

theorem hasFail_nil : hasFail [] = false := rfl

theorem hasFail_called (i : Nat) (tr : List Ev) :
    hasFail (Ev.called i :: tr) = hasFail tr := rfl

theorem hasFail_produced (i : Nat) (v : JVal) (tr : List Ev) :
    hasFail (Ev.produced i v :: tr) = hasFail tr := rfl

theorem hasFail_skipped (i : Nat) (tr : List Ev) :
    hasFail (Ev.skipped i :: tr) = hasFail tr := rfl

theorem hasFail_failed (i : Nat) (e : JVal) (tr : List Ev) :
    hasFail (Ev.failed i e :: tr) = true := rfl

theorem lastD_nil (d : JVal) : lastD [] d = d := rfl

theorem lastD_cons (x : JVal) (l : List JVal) (d : JVal) :
    lastD (x :: l) d = lastD l x := rfl

theorem run_accounting : ∀ (pending : List Worker) (opts : Options) (wk : Worker) (w : W)
    (xs : List JVal), DoneOk opts → NamesGood w.names = true →
    getProp w.props "result" = JVal.varr xs →
    ∃ st w', (runPending opts wk pending w).settled = some (st, w') ∧
      getProp w'.props "result" =
        JVal.varr (xs ++ settledVals (runPending opts wk pending w).trace) ∧
      (hasFail (runPending opts wk pending w).trace = false →
        st = Settlement.resolved (lastD (producedVals (runPending opts wk pending w).trace)
              (getProp w.props "rres")) ∧
        (settledVals (runPending opts wk pending w).trace).length = pending.length + 1) ∧
      (hasFail (runPending opts wk pending w).trace = true →
        (settledVals (runPending opts wk pending w).trace).length ≤ pending.length ∧
        ∃ e, st = if opts.alwaysResolved then Settlement.resolved JVal.vundef
                  else Settlement.rejected e) := by
  intro pending
  induction pending with
  | nil =>
      intro opts wk w xs hd hg hr
      cases hen : wk.isEnabled w.props with
      | false =>
          obtain ⟨w2, hna, hres2, hrres2, hnm2⟩ :=
            nextAssign_ok { w with current := some wk, works := ([] : List Worker) } wk.idx JVal.vnull xs hg hr
          have hres2' : getProp w2.props "result" = JVal.varr (xs ++ [JVal.vnull]) := hres2
          have hrres2' : getProp w2.props "rres" = getProp w.props "rres" := hrres2
          rw [runPending_skip_nil opts wk w w2 hen hna, runFinalize_eq opts w2 hd]
          refine ⟨_, w2, rfl, ?_, ?_, ?_⟩
          · rw [show settledVals [Ev.skipped wk.idx] = [JVal.vnull] from rfl]
            exact hres2'
          · intro _
            refine ⟨?_, by simp [settledVals_skipped, settledVals_nil]⟩
            rw [hrres2']
            rfl
          · intro h
            rw [hasFail_skipped, hasFail_nil] at h
            simp at h
      | true =>
          cases hh : wk.handler.asHandler w.props with
          | thrown e2 =>
              rw [runPending_thrown opts wk [] w e2 hen hh,
                  runStop_eq opts { w with current := some wk, works := ([] : List Worker) } e2 hd]
              refine ⟨_, _, rfl, ?_, ?_, ?_⟩
              · rw [show settledVals [Ev.called wk.idx, Ev.failed wk.idx e2] = [] from rfl]
                rw [List.append_nil]
                show getProp (setProp w.props "err" e2) "result" = JVal.varr xs
                rw [getProp_setProp_diff _ _ _ _ (by decide)]
                exact hr
              · intro h
                rw [hasFail_called, hasFail_failed] at h
                simp at h
              · intro _
                exact ⟨by simp [settledVals_called, settledVals_failed, settledVals_nil], e2, rfl⟩
          | rejected e2 =>
              rw [runPending_rejected opts wk [] w e2 hen hh,
                  runStop_eq opts { w with current := some wk, works := ([] : List Worker) } e2 hd]
              refine ⟨_, _, rfl, ?_, ?_, ?_⟩
              · rw [show settledVals [Ev.called wk.idx, Ev.failed wk.idx e2] = [] from rfl]
                rw [List.append_nil]
                show getProp (setProp w.props "err" e2) "result" = JVal.varr xs
                rw [getProp_setProp_diff _ _ _ _ (by decide)]
                exact hr
              · intro h
                rw [hasFail_called, hasFail_failed] at h
                simp at h
              · intro _
                exact ⟨by simp [settledVals_called, settledVals_failed, settledVals_nil], e2, rfl⟩
          | resolved v =>
              have hr1 : getProp (setProp w.props "rres" v) "result" = JVal.varr xs := by
                rw [getProp_setProp_diff _ _ _ _ (by decide)]
                exact hr
              obtain ⟨w2, hna, hres2, hrres2, hnm2⟩ :=
                nextAssign_ok { w with props := setProp w.props "rres" v, current := some wk, works := ([] : List Worker) } wk.idx v xs hg hr1
              have hres2' : getProp w2.props "result" = JVal.varr (xs ++ [v]) := hres2
              have hrres2' : getProp w2.props "rres" = v := by
                have h0 : getProp w2.props "rres" = getProp (setProp w.props "rres" v) "rres" := hrres2
                rw [h0, getProp_setProp_same]
              rw [runPending_resolved_nil opts wk w w2 v hen hh hna, runFinalize_eq opts w2 hd]
              refine ⟨_, w2, rfl, ?_, ?_, ?_⟩
              · rw [show settledVals [Ev.called wk.idx, Ev.produced wk.idx v] = [v] from rfl]
                exact hres2'
              · intro _
                refine ⟨?_, by simp [settledVals_called, settledVals_produced, settledVals_nil]⟩
                rw [hrres2']
                rfl
              · intro h
                rw [hasFail_called, hasFail_produced, hasFail_nil] at h
                simp at h
  | cons wk2 rest ih =>
      intro opts wk w xs hd hg hr
      cases hen : wk.isEnabled w.props with
      | false =>
          obtain ⟨w2, hna, hres2, hrres2, hnm2⟩ :=
            nextAssign_ok { w with current := some wk, works := wk2 :: rest } wk.idx JVal.vnull xs hg hr
          have hres2' : getProp w2.props "result" = JVal.varr (xs ++ [JVal.vnull]) := hres2
          have hrres2' : getProp w2.props "rres" = getProp w.props "rres" := hrres2
          have hg2 : NamesGood w2.names = true := by
            have h0 : w2.names = w.names := hnm2
            rw [h0]
            exact hg
          obtain ⟨st, w', hset, hres', hnf, hf⟩ := ih opts wk2 w2 (xs ++ [JVal.vnull]) hd hg2 hres2'
          rw [runPending_skip_cons opts wk wk2 rest w w2 hen hna]
          refine ⟨st, w', hset, ?_, ?_, ?_⟩
          · rw [settledVals_skipped]
            rw [show xs ++ JVal.vnull :: settledVals (runPending opts wk2 rest w2).trace
                  = (xs ++ [JVal.vnull]) ++ settledVals (runPending opts wk2 rest w2).trace by
                  rw [List.append_assoc]; rfl]
            exact hres'
          · intro h
            rw [hasFail_skipped] at h
            obtain ⟨hst, hlen⟩ := hnf h
            constructor
            · rw [hst, producedVals_skipped, ← hrres2']
            · rw [settledVals_skipped, List.length_cons, hlen]
              simp
          · intro h
            rw [hasFail_skipped] at h
            obtain ⟨hlen, he⟩ := hf h
            refine ⟨?_, he⟩
            rw [settledVals_skipped, List.length_cons]
            simpa using Nat.succ_le_succ hlen
      | true =>
          cases hh : wk.handler.asHandler w.props with
          | thrown e2 =>
              rw [runPending_thrown opts wk (wk2 :: rest) w e2 hen hh,
                  runStop_eq opts { w with current := some wk, works := wk2 :: rest } e2 hd]
              refine ⟨_, _, rfl, ?_, ?_, ?_⟩
              · rw [show settledVals [Ev.called wk.idx, Ev.failed wk.idx e2] = [] from rfl]
                rw [List.append_nil]
                show getProp (setProp w.props "err" e2) "result" = JVal.varr xs
                rw [getProp_setProp_diff _ _ _ _ (by decide)]
                exact hr
              · intro h
                rw [hasFail_called, hasFail_failed] at h
                simp at h
              · intro _
                refine ⟨?_, e2, rfl⟩
                rw [show settledVals [Ev.called wk.idx, Ev.failed wk.idx e2] = [] from rfl]
                simp
          | rejected e2 =>
              rw [runPending_rejected opts wk (wk2 :: rest) w e2 hen hh,
                  runStop_eq opts { w with current := some wk, works := wk2 :: rest } e2 hd]
              refine ⟨_, _, rfl, ?_, ?_, ?_⟩
              · rw [show settledVals [Ev.called wk.idx, Ev.failed wk.idx e2] = [] from rfl]
                rw [List.append_nil]
                show getProp (setProp w.props "err" e2) "result" = JVal.varr xs
                rw [getProp_setProp_diff _ _ _ _ (by decide)]
                exact hr
              · intro h
                rw [hasFail_called, hasFail_failed] at h
                simp at h
              · intro _
                refine ⟨?_, e2, rfl⟩
                rw [show settledVals [Ev.called wk.idx, Ev.failed wk.idx e2] = [] from rfl]
                simp
          | resolved v =>
              have hr1 : getProp (setProp w.props "rres" v) "result" = JVal.varr xs := by
                rw [getProp_setProp_diff _ _ _ _ (by decide)]
                exact hr
              obtain ⟨w2, hna, hres2, hrres2, hnm2⟩ :=
                nextAssign_ok { w with props := setProp w.props "rres" v, current := some wk, works := wk2 :: rest } wk.idx v xs hg hr1
              have hres2' : getProp w2.props "result" = JVal.varr (xs ++ [v]) := hres2
              have hrres2' : getProp w2.props "rres" = v := by
                have h0 : getProp w2.props "rres" = getProp (setProp w.props "rres" v) "rres" := hrres2
                rw [h0, getProp_setProp_same]
              have hg2 : NamesGood w2.names = true := by
                have h0 : w2.names = w.names := hnm2
                rw [h0]
                exact hg
              obtain ⟨st, w', hset, hres', hnf, hf⟩ := ih opts wk2 w2 (xs ++ [v]) hd hg2 hres2'
              rw [runPending_resolved_cons opts wk wk2 rest w w2 v hen hh hna]
              refine ⟨st, w', hset, ?_, ?_, ?_⟩
              · rw [settledVals_called, settledVals_produced]
                rw [show xs ++ v :: settledVals (runPending opts wk2 rest w2).trace
                      = (xs ++ [v]) ++ settledVals (runPending opts wk2 rest w2).trace by
                      rw [List.append_assoc]; rfl]
                exact hres'
              · intro h
                rw [hasFail_called, hasFail_produced] at h
                obtain ⟨hst, hlen⟩ := hnf h
                constructor
                · rw [hst, producedVals_called, producedVals_produced, lastD_cons, ← hrres2']
                · rw [settledVals_called, settledVals_produced, List.length_cons, hlen]
                  simp
              · intro h
                rw [hasFail_called, hasFail_produced] at h
                obtain ⟨hlen, he⟩ := hf h
                refine ⟨?_, he⟩
                rw [settledVals_called, settledVals_produced, List.length_cons]
                simpa using Nat.succ_le_succ hlen

theorem buildWorkers_error : ∀ (specs : List RawSpec) (idx : Nat) (s : RawSpec),
    s ∈ specs → createFails s = true →
    ∃ e, (buildWorkers specs idx).fst = Except.error e := by
  intro specs
  induction specs with
  | nil =>
      intro idx s hs _
      simp at hs
  | cons s0 rest ih =>
      intro idx s hs hf
      rcases List.mem_cons.mp hs with rfl | hs'
      · unfold createFails at hf
        unfold buildWorkers
        cases hc : Worker.create s with
        | mk r s2 =>
            rw [hc] at hf
            cases r with
            | error e => exact ⟨e, rfl⟩
            | ok wk => simp at hf
      · unfold buildWorkers
        cases hc : Worker.create s0 with
        | mk r s2 =>
            cases r with
            | error e => exact ⟨e, rfl⟩
            | ok wk =>
                obtain ⟨e, he⟩ := ih (idx + 1) s hs' hf
                cases hb : buildWorkers rest (idx + 1) with
                | mk r2 rest2 =>
                    rw [hb] at he
                    cases r2 with
                    | error e2 => exact ⟨e2, rfl⟩
                    | ok ws => simp at he

theorem buildWorkers_ok_specs : ∀ (specs : List RawSpec) (idx : Nat) (ws : List Worker),
    (buildWorkers specs idx).fst = Except.ok ws →
    (buildWorkers specs idx).snd = specs.map specAfter := by
  intro specs
  induction specs with
  | nil =>
      intro idx ws _
      simp [buildWorkers]
  | cons s0 rest ih =>
      intro idx ws h
      unfold buildWorkers at h ⊢
      cases hc : Worker.create s0 with
      | mk r s2 =>
          rw [hc] at h
          cases r with
          | error e => simp at h
          | ok wk =>
              cases hb : buildWorkers rest (idx + 1) with
              | mk r2 rest2 =>
                  rw [hb] at h
                  cases r2 with
                  | error e2 => simp at h
                  | ok ws2 =>
                      have h2 : (buildWorkers rest (idx + 1)).snd = rest.map specAfter := by
                        apply ih (idx + 1) ws2
                        rw [hb]
                      rw [hb] at h2
                      simp only [List.map_cons]
                      rw [← h2]
                      have hs2 : s2 = specAfter s0 := by
                        unfold specAfter
                        rw [hc]
                      rw [hs2]

theorem buildWorkers_ok_length : ∀ (specs : List RawSpec) (idx : Nat) (ws : List Worker),
    (buildWorkers specs idx).fst = Except.ok ws → ws.length = specs.length := by
  intro specs
  induction specs with
  | nil =>
      intro idx ws h
      simp [buildWorkers] at h
      rw [h]
      rfl
  | cons s0 rest ih =>
      intro idx ws h
      unfold buildWorkers at h
      cases hc : Worker.create s0 with
      | mk r s2 =>
          rw [hc] at h
          cases r with
          | error e => simp at h
          | ok wk =>
              cases hb : buildWorkers rest (idx + 1) with
              | mk r2 rest2 =>
                  rw [hb] at h
                  cases r2 with
                  | error e2 => simp at h
                  | ok ws2 =>
                      have h2 : ws2.length = rest.length := by
                        apply ih (idx + 1)
                        rw [hb]
                      injection h with h3
                      rw [← h3]
                      simp [h2]

theorem works_eq_run (specs : List RawSpec) (opts : Options) (wk : Worker)
    (rest : List Worker) (specs2 : List RawSpec) (st : Settlement) (w2 : W)
    (hb : buildWorkers specs 0 = (Except.ok (wk :: rest), specs2))
    (hs : (runPending opts wk rest (initW (wk :: rest))).settled = some (st, w2)) :
    Work.works specs opts =
      { result := WorksResult.settled st w2,
        trace := (runPending opts wk rest (initW (wk :: rest))).trace,
        specsAfter := specs2 } := by
  unfold Work.works
  rw [hb]
  simp only [hs]

theorem works_thrown_of_bad (specs : List RawSpec) (opts : Options) (s : RawSpec)
    (hs : s ∈ specs) (hf : createFails s = true) :
    ∃ e, Work.works specs opts =
      { result := WorksResult.thrown e, trace := [],
        specsAfter := (buildWorkers specs 0).snd } := by
  obtain ⟨e, he⟩ := buildWorkers_error specs 0 s hs hf
  refine ⟨e, ?_⟩
  unfold Work.works
  cases hb : buildWorkers specs 0 with
  | mk r specs2 =>
      rw [hb] at he
      simp only at he
      rw [he]

/-- C7: for every named step that has been processed, looking the result up
by name and looking it up by that step's position return identical values:
`getRes(name)` equals `getRes(position)` whenever the name index maps the
name to the position and the position is within the processed-results
range. -/
theorem c7_get_res_name_position (w : W) (nm : String) (i : Nat) (xs : List JVal)
    (hl : lookupName w.names nm = some i)
    (_hr : getProp w.props "result" = JVal.varr xs)
    (_hb : i < xs.length) :
    W.getRes w (Sum.inl nm) = W.getRes w (Sum.inr (Int.ofNat i)) := by
  simp only [W.getRes]
  rw [hl]

/-- C7 witness: on a state with results `[10, 20]` and names `a ↦ 0`,
`b ↦ 1`, the two lookups for `b` agree. -/
theorem c7_witness :
    W.getRes wit7W (Sum.inl "b") = W.getRes wit7W (Sum.inr (Int.ofNat 1)) :=
  c7_get_res_name_position wit7W "b" 1 [JVal.vnum 10, JVal.vnum 20] rfl rfl (by decide)

/-- C9: with pending items, a `next()` invocation under a set `pending` flag
or a callable admission check currently returning false leaves the queue
state entirely unchanged (no item consumed or dropped) and only schedules a
deferred retry; a non-callable admission check is treated as always
admitting (the front item is consumed). -/
theorem c9_blocked_advance {α : Type} (q : QueueSt α) (hne : q.queues ≠ []) :
    ((q.pending = true ∨ checkBlocks q.check = true) →
      q.next = (NextAction.retryLater, q)) ∧
    (q.pending = false → q.check = CheckSpec.notCallable →
      ∃ it rest, q.queues = it :: rest ∧
        q.next = (NextAction.consumed it, { q with queues := rest, queue := some it })) := by
  constructor
  · intro hb
    have hcond : (q.pending || checkBlocks q.check) = true := by
      rcases hb with h | h <;> simp [h]
    unfold QueueSt.next
    cases hq : q.queues with
    | nil => exact absurd hq hne
    | cons it rest =>
        rw [hcond]
        simp
  · intro hp hc
    unfold QueueSt.next
    cases hq : q.queues with
    | nil => exact absurd hq hne
    | cons it rest =>
        refine ⟨it, rest, rfl, ?_⟩
        have hcond : (q.pending || checkBlocks q.check) = false := by
          rw [hp, hc]
          rfl
        rw [hcond]
        simp

/-- C9 witness: a paused queue holding `[1, 2]` polls without consuming; the
same queue with a non-callable check consumes item 1. -/
theorem c9_witness :
    QueueSt.next wit9Q = (NextAction.retryLater, wit9Q) ∧
    (∃ it rest, wit9Q2.queues = it :: rest ∧
      QueueSt.next wit9Q2 =
        (NextAction.consumed it, { wit9Q2 with queues := rest, queue := some it })) :=
  ⟨(c9_blocked_advance wit9Q (by decide)).1 (Or.inl rfl),
   (c9_blocked_advance wit9Q2 (by decide)).2 rfl rfl⟩

/-- C8: `requeue` on an idle queue (no pending items, none in flight) invokes
`next()` after the insertion — with the queue unblocked and items nonempty
the first inserted item is consumed immediately; `requeue` on a busy queue
invokes nothing, leaves the in-flight item untouched, and places the items
ahead of (atFront) or behind the previously pending ones. -/
theorem c8_requeue {α : Type} (q : QueueSt α) (items : List α) (top : Bool) :
    ((q.queues = [] ∧ q.queue = none) →
      (q.requeue items top).fst.isSome = true ∧
      (q.pending = false → checkBlocks q.check = false →
        ∀ it rest, items = it :: rest →
          q.requeue items top =
            (some (NextAction.consumed it),
             { q with queues := rest, queue := some it }))) ∧
    (¬(q.queues = [] ∧ q.queue = none) →
      (q.requeue items top).fst = none ∧
      (q.requeue items top).snd.queue = q.queue ∧
      (q.requeue items top).snd.queues =
        (if top then items ++ q.queues else q.queues ++ items)) := by
  constructor
  · rintro ⟨h1, h2⟩
    have hpn : (q.queues.isEmpty && q.queue.isNone) = true := by
      rw [h1, h2]
      rfl
    constructor
    · unfold QueueSt.requeue
      rw [hpn]
      simp
    · intro hp hc it rest hitems
      subst hitems
      unfold QueueSt.requeue
      rw [hpn]
      simp only [if_true]
      have hq2 : (if top then (it :: rest) ++ q.queues else q.queues ++ (it :: rest))
          = it :: rest := by
        rw [h1]
        cases top <;> simp
      unfold QueueSt.next
      simp only [hq2]
      have hcond : (q.pending || checkBlocks q.check) = false := by
        rw [hp, hc]
        rfl
      rw [hcond]
      simp
  · intro h
    have hpn : (q.queues.isEmpty && q.queue.isNone) = false := by
      cases hqe : q.queues.isEmpty with
      | false => simp [hqe]
      | true =>
          cases hqn : q.queue.isNone with
          | false => simp [hqn]
          | true =>
              exact absurd ⟨List.isEmpty_iff.mp hqe, Option.isNone_iff_eq_none.mp hqn⟩ h
    unfold QueueSt.requeue
    rw [hpn]
    simp

/-- C8 witness: requeueing `[1, 2]` into an idle queue consumes item 1 at
once; requeueing `[9]` at the front of a busy queue changes nothing in
flight and queues `[9, 7]`. -/
theorem c8_witness :
    QueueSt.requeue wit8Idle [1, 2] false =
      (some (NextAction.consumed 1), { wit8Idle with queues := [2], queue := some 1 }) ∧
    ((QueueSt.requeue wit8Busy [9] true).fst = none ∧
     (QueueSt.requeue wit8Busy [9] true).snd.queue = some 5 ∧
     (QueueSt.requeue wit8Busy [9] true).snd.queues = [9, 7]) :=
  ⟨((c8_requeue wit8Idle [1, 2] false).1 ⟨rfl, rfl⟩).2 rfl rfl 1 [2] rfl,
   (c8_requeue wit8Busy [9] true).2 (by decide)⟩

theorem works_specsAfter (specs : List RawSpec) (opts : Options) :
    (Work.works specs opts).specsAfter = (buildWorkers specs 0).snd := by
  unfold Work.works
  cases hb : buildWorkers specs 0 with
  | mk r specs2 =>
      cases r with
      | error e => rfl
      | ok ws =>
          cases ws with
          | nil =>
              cases hda : doAlways opts (initW ([] : List Worker)).props JVal.vundef with
              | ok => simp only [hda]
              | fail e => simp only [hda]
          | cons wk rest =>
              cases hrs : (runPending opts wk rest (initW (wk :: rest))).settled with
              | none => simp only [hrs]
              | some sw => simp only [hrs]

theorem works_empty_eq (specs : List RawSpec) (opts : Options) (specs2 : List RawSpec)
    (hd : DoneOk opts)
    (hb : buildWorkers specs 0 = (Except.ok [], specs2)) :
    Work.works specs opts =
      { result := WorksResult.settled (Settlement.resolved JVal.vundef)
                    (initW ([] : List Worker)),
        trace := [], specsAfter := specs2 } := by
  unfold Work.works
  rw [hb]
  have hda : doAlways opts (initW ([] : List Worker)).props JVal.vundef = DoneRes.ok :=
    doAlways_ok _ _ _ hd
  simp only [hda]

theorem works_not_thrown (specs : List RawSpec) (opts : Options)
    (h : (Work.works specs opts).threw = false) :
    ∃ ws, (buildWorkers specs 0).fst = Except.ok ws := by
  unfold Work.works at h
  cases hb : buildWorkers specs 0 with
  | mk r specs2 =>
      rw [hb] at h
      cases r with
      | error e => simp [WorksOut.threw] at h
      | ok ws => exact ⟨ws, rfl⟩

/-- C10: for every named step spec (a tuple whose first element is a string),
normalization removes the leading name string from the caller's array in
place, so when `Work.works` returns (does not throw), the caller's array no
longer holds the name element at that position, and re-normalizing the
mutated spec yields an unnamed step. -/
theorem c10_name_shift_mutation (specs : List RawSpec) (opts : Options) (i : Nat)
    (nm : String) (f : JFun) (rest : List RawElem)
    (hret : (Work.works specs opts).threw = false)
    (hi : specs[i]? = some (RawSpec.arr (RawElem.str nm :: RawElem.fn f :: rest))) :
    (Work.works specs opts).specsAfter[i]? = some (RawSpec.arr (RawElem.fn f :: rest)) ∧
    (∀ wk, (Worker.create (RawSpec.arr (RawElem.fn f :: rest))).fst = Except.ok wk →
      wk.name = none) := by
  constructor
  · obtain ⟨ws, hok⟩ := works_not_thrown specs opts hret
    have hspecs := buildWorkers_ok_specs specs 0 ws hok
    rw [works_specsAfter, hspecs, List.getElem?_map, hi]
    rfl
  · intro wk hwk
    cases rest with
    | nil =>
        injection hwk with h3
        rw [← h3]
    | cons e0 es =>
        cases e0 with
        | str s => exact absurd hwk (by intro h; cases h)
        | fn p =>
            injection hwk with h3
            rw [← h3]
        | other v => exact absurd hwk (by intro h; cases h)

/-- C10 witness: running a list whose only step is `["alpha", h]` leaves the
caller's array holding `[h]`, which re-normalizes to an unnamed step. -/
theorem c10_witness :
    (Work.works wit10Specs opts0).specsAfter[0]? =
      some (RawSpec.arr [RawElem.fn (jh (JVal.vnum 4))]) ∧
    (∀ wk, (Worker.create (RawSpec.arr [RawElem.fn (jh (JVal.vnum 4))])).fst = Except.ok wk →
      wk.name = none) :=
  c10_name_shift_mutation wit10Specs opts0 0 "alpha" (jh (JVal.vnum 4)) [] rfl rfl

/-- C1 counterexample: for the step list `[[null]]` (malformed: no callable
handler), `Work.works` ends in a synchronous exception escaping the call —
there is no settled outcome for a caller to await, contradicting the claim
that the error propagates as the failed outcome of the returned run. -/
theorem c1_counterexample :
    (Work.works [badSpec] opts0).result =
      WorksResult.thrown "Worker handler must be function, got object!" ∧
    (Work.works [badSpec] opts0).settle = none :=
  ⟨rfl, rfl⟩

/-- C1 (amended): for every step list containing a malformed step spec, the
construction error is thrown synchronously out of `Work.works` itself before
any step handler executes (the event trace is empty); no promise is returned,
so the caller observes an exception, not a rejected outcome. -/
theorem c1_construction_error_thrown (specs : List RawSpec) (opts : Options)
    (s : RawSpec) (hs : s ∈ specs) (hf : createFails s = true) :
    ∃ e, (Work.works specs opts).result = WorksResult.thrown e ∧
      (Work.works specs opts).trace = [] := by
  obtain ⟨e, he⟩ := works_thrown_of_bad specs opts s hs hf
  refine ⟨e, ?_, ?_⟩ <;> rw [he]

/-- C1 witness: the amended claim applied to the concrete list `[[null]]`. -/
theorem c1_witness :
    ∃ e, (Work.works [badSpec] opts0).result = WorksResult.thrown e ∧
      (Work.works [badSpec] opts0).trace = [] :=
  c1_construction_error_thrown [badSpec] opts0 badSpec (List.Mem.head _) rfl

theorem typeofVal_ne_function (v : JVal) : typeofVal v ≠ "function" := by
  cases v <;> simp [typeofVal]

theorem memberTypeof_function_iff (w : W) (nm : String) :
    W.memberTypeof w nm = "function" ↔ isMethodName nm = true := by
  unfold W.memberTypeof
  cases hm : isMethodName nm with
  | true => simp
  | false =>
      simp only [Bool.false_eq_true, if_false]
      constructor
      · intro h
        by_cases h1 : (nm == "names" || nm == "works") = true
        · rw [if_pos h1] at h
          exact absurd h (by decide)
        · rw [if_neg h1] at h
          by_cases h2 : (nm == "current") = true
          · rw [if_pos h2] at h
            cases hcur : w.current with
            | some wk =>
                rw [hcur] at h
                have h3 : "object" = "function" := h
                exact absurd h3 (by decide)
            | none =>
                rw [hcur] at h
                have h3 : "undefined" = "function" := h
                exact absurd h3 (by decide)
          · rw [if_neg h2] at h
            exact absurd h (typeofVal_ne_function _)
      · intro h
        simp at h

theorem isMethodName_data_free (nm : String) (h : isMethodName nm = true) :
    nm ≠ "result" ∧ nm ≠ "pres" ∧ nm ≠ "res" := by
  refine ⟨?_, ?_, ?_⟩ <;> intro he <;> subst he <;> exact absurd h (by decide)

/-- C2 (amended): after a named step settles with value `v`, the run state
exposes `v` under the step's name unless the member currently bound to that
name is function-valued (method members win, silently); a name colliding
with a non-function member — including data fields such as the results list
or the captured failure — has that member overwritten with `v`. -/
theorem c2_named_result_exposure (w : W) (idx : Nat) (v : JVal) (xs : List JVal)
    (nm : String) (w2 : W)
    (hr : getProp w.props "result" = JVal.varr xs)
    (hnm : W.getName w idx = some nm) (hne : (nm == "") = false)
    (hok : nextAssign w idx v = Except.ok w2) :
    (W.memberTypeof w nm = "function" → getProp w2.props nm = getProp w.props nm) ∧
    (W.memberTypeof w nm ≠ "function" → getProp w2.props nm = v) := by
  unfold nextAssign at hok
  rw [hr] at hok
  simp only [] at hok
  split at hok
  · next nm2 hnm2 =>
      have hsame : some nm2 = some nm := by
        have h12 : W.getName w idx = some nm2 := hnm2
        rw [← h12, hnm]
      have hnm21 : nm2 = nm := Option.some.inj hsame
      subst hnm21
      rw [hne] at hok
      simp only [Bool.false_eq_true, if_false] at hok
      split at hok
      · next hfn =>
          have hfn2 : isMethodName nm2 = true := by
            have h0 : W.memberTypeof w nm2 = "function" := by
              rw [memberTypeof_function_iff]
              have h1 : W.memberTypeof { w with props := setProp (setProp (setProp w.props "result" (JVal.varr (xs ++ [v]))) "pres" (getProp (setProp w.props "result" (JVal.varr (xs ++ [v]))) "res")) "res" v } nm2 = "function" := by
                simpa using hfn
              rw [memberTypeof_function_iff] at h1
              exact h1
            rw [memberTypeof_function_iff] at h0
            exact h0
          obtain ⟨hd1, hd2, hd3⟩ := isMethodName_data_free nm2 hfn2
          have hw2 : w2 = { w with props := setProp (setProp (setProp w.props "result" (JVal.varr (xs ++ [v]))) "pres" (getProp (setProp w.props "result" (JVal.varr (xs ++ [v]))) "res")) "res" v } := (Except.ok.inj hok).symm
          constructor
          · intro _
            rw [hw2]
            show getProp (setProp (setProp (setProp w.props "result" (JVal.varr (xs ++ [v]))) "pres" (getProp (setProp w.props "result" (JVal.varr (xs ++ [v]))) "res")) "res" v) nm2 = getProp w.props nm2
            rw [getProp_setProp_diff _ _ _ _ hd3, getProp_setProp_diff _ _ _ _ hd2,
                getProp_setProp_diff _ _ _ _ hd1]
          · intro hcon
            exact absurd ((memberTypeof_function_iff w nm2).mpr hfn2) hcon
      · next hfn =>
          have hfn2 : isMethodName nm2 = false := by
            by_cases h0 : isMethodName nm2 = true
            · exfalso
              apply hfn
              have h1 := (memberTypeof_function_iff { w with props := setProp (setProp (setProp w.props "result" (JVal.varr (xs ++ [v]))) "pres" (getProp (setProp w.props "result" (JVal.varr (xs ++ [v]))) "res")) "res" v } nm2).mpr h0
              simpa using h1
            · exact Bool.not_eq_true _ |>.mp h0
          have hw2 : w2 = { w with props := setProp (setProp (setProp (setProp w.props "result" (JVal.varr (xs ++ [v]))) "pres" (getProp (setProp w.props "result" (JVal.varr (xs ++ [v]))) "res")) "res" v) nm2 v } := (Except.ok.inj hok).symm
          constructor
          · intro hcon
            rw [memberTypeof_function_iff] at hcon
            rw [hfn2] at hcon
            exact absurd hcon (by decide)
          · intro _
            rw [hw2]
            show getProp (setProp (setProp (setProp (setProp w.props "result" (JVal.varr (xs ++ [v]))) "pres" (getProp (setProp w.props "result" (JVal.varr (xs ++ [v]))) "res")) "res" v) nm2 v) nm2 = v
            rw [getProp_setProp_same]
  · next hnone =>
      have h12 : W.getName w idx = none := hnone
      rw [hnm] at h12
      cases h12

/-- C2 counterexample: a single step named `result` resolving 5 — the
pre-existing results-list member is NOT left unchanged: after the run it
holds the number 5 instead of the one-element results list, so for a data
member the reserved accessor does not win. -/
theorem c2_counterexample :
    (Work.works cex2Specs opts0).settle = some (Settlement.resolved (JVal.vnum 5)) ∧
    ((Work.works cex2Specs opts0).finalProps.map (fun p => getProp p "result")
      = some (JVal.vnum 5)) ∧
    JVal.vnum 5 ≠ JVal.varr [JVal.vnum 5] :=
  ⟨rfl, rfl, fun h => JVal.noConfusion h⟩

/-- C2 witness: the amended claim applied at a state whose step 0 is named
`value` (a fresh name, member currently undefined): the value 9 is exposed
under `value`. -/
theorem c2_witness : getProp wit2W2.props "value" = JVal.vnum 9 :=
  (c2_named_result_exposure wit2W 0 (JVal.vnum 9) [] "value" wit2W2
    rfl rfl rfl rfl).2 (by decide)

/-- C4 counterexample: with `alwaysResolved` set but a completion hook whose
own promise rejects, a failing handler does NOT yield a successful
settlement — the run rejects with the hook's reason (`stop` awaits the hook
and `.catch` rejects), so `alwaysSucceed` alone does not force success. -/
theorem c4_counterexample :
    (Work.works cex4Specs optsARDoneFail).settle =
      some (Settlement.rejected (JVal.vstr "done failed")) :=
  rfl

/-- C4 (amended): provided the completion hook (when configured) never
fails, `alwaysResolved` turns any handler failure — asynchronous rejection
or synchronous throw — into a successful settlement with no value; and a
synchronous throw and an asynchronous rejection with the same reason are
routed through the identical failure path: the event trace and the settled
outcome with the final instance properties coincide. -/
theorem c4_failure_path (opts : Options) (wk wk2 : Worker) (pending : List Worker)
    (w : W) (e : JVal) (hd : DoneOk opts) :
    (opts.alwaysResolved = true → wk.isEnabled w.props = true →
      (wk.handler.asHandler w.props = HandlerOutcome.thrown e ∨
       wk.handler.asHandler w.props = HandlerOutcome.rejected e) →
      ∃ w', (runPending opts wk pending w).settled =
        some (Settlement.resolved JVal.vundef, w')) ∧
    (wk.idx = wk2.idx → wk.isEnabled w.props = true → wk2.isEnabled w.props = true →
      wk.handler.asHandler w.props = HandlerOutcome.thrown e →
      wk2.handler.asHandler w.props = HandlerOutcome.rejected e →
      (runPending opts wk pending w).trace = (runPending opts wk2 pending w).trace ∧
      ((runPending opts wk pending w).settled.map (fun sw => (sw.fst, sw.snd.props)) =
       (runPending opts wk2 pending w).settled.map (fun sw => (sw.fst, sw.snd.props)))) := by
  constructor
  · intro hAR hen hout
    rcases hout with hh | hh
    · rw [runPending_thrown opts wk pending w e hen hh,
          runStop_eq opts { w with current := some wk, works := pending } e hd, hAR]
      exact ⟨_, rfl⟩
    · rw [runPending_rejected opts wk pending w e hen hh,
          runStop_eq opts { w with current := some wk, works := pending } e hd, hAR]
      exact ⟨_, rfl⟩
  · intro hidx hen1 hen2 hh1 hh2
    rw [runPending_thrown opts wk pending w e hen1 hh1,
        runPending_rejected opts wk2 pending w e hen2 hh2,
        runStop_eq opts { w with current := some wk, works := pending } e hd,
        runStop_eq opts { w with current := some wk2, works := pending } e hd, hidx]
    exact ⟨rfl, rfl⟩

/-- C4 witness: with `alwaysResolved` and no hook, a throwing step and a
rejecting step with the same reason both settle resolved-with-no-value and
produce identical observations. -/
theorem c4_witness :
    (∃ w', (runPending optsAR wkThrow0 [] (initW ([] : List Worker))).settled =
      some (Settlement.resolved JVal.vundef, w')) ∧
    ((runPending optsAR wkThrow0 [] (initW ([] : List Worker))).trace =
      (runPending optsAR wkRej0 [] (initW ([] : List Worker))).trace ∧
     ((runPending optsAR wkThrow0 [] (initW ([] : List Worker))).settled.map
        (fun sw => (sw.fst, sw.snd.props)) =
      (runPending optsAR wkRej0 [] (initW ([] : List Worker))).settled.map
        (fun sw => (sw.fst, sw.snd.props)))) :=
  ⟨(c4_failure_path optsAR wkThrow0 wkRej0 [] (initW ([] : List Worker)) (JVal.vstr "x")
      (fun _ h => nomatch h)).1 rfl rfl (Or.inl rfl),
   (c4_failure_path optsAR wkThrow0 wkRej0 [] (initW ([] : List Worker)) (JVal.vstr "x")
      (fun _ h => nomatch h)).2 rfl rfl rfl rfl rfl⟩

/-- C6: a step whose enabled predicate evaluates to false on the current run
state never invokes its handler — the step's first event is a skip and no
handler-invocation event for its position ever appears (positions being
unique) — the null skip marker is appended to its slot in the results
sequence, and the run advances and settles as if the step had succeeded. -/
theorem c6_skip_semantics (opts : Options) (wk : Worker) (pending : List Worker)
    (w : W) (xs : List JVal)
    (hen : wk.isEnabled w.props = false)
    (hr : getProp w.props "result" = JVal.varr xs)
    (hg : NamesGood w.names = true)
    (hd : DoneOk opts)
    (hfresh : wk.idx ∉ pending.map Worker.idx) :
    (∃ tr2, (runPending opts wk pending w).trace = Ev.skipped wk.idx :: tr2) ∧
    Ev.called wk.idx ∉ (runPending opts wk pending w).trace ∧
    (∃ st w' ys, (runPending opts wk pending w).settled = some (st, w') ∧
      getProp w'.props "result" = JVal.varr (xs ++ JVal.vnull :: ys)) := by
  obtain ⟨w2, hna, hres2, hrres2, hnm2⟩ :=
    nextAssign_ok { w with current := some wk, works := pending } wk.idx JVal.vnull xs hg hr
  have hres2' : getProp w2.props "result" = JVal.varr (xs ++ [JVal.vnull]) := hres2
  have hg2 : NamesGood w2.names = true := by
    have h0 : w2.names = w.names := hnm2
    rw [h0]
    exact hg
  cases pending with
  | nil =>
      rw [runPending_skip_nil opts wk w w2 hen hna, runFinalize_eq opts w2 hd]
      refine ⟨⟨[], rfl⟩, ?_, ?_⟩
      · intro hmem
        simp only [List.mem_cons, List.not_mem_nil, or_false] at hmem
        cases hmem
      · refine ⟨_, w2, [], rfl, ?_⟩
        exact hres2'
  | cons wk2 rest =>
      rw [runPending_skip_cons opts wk wk2 rest w w2 hen hna]
      refine ⟨⟨_, rfl⟩, ?_, ?_⟩
      · intro hmem
        simp only [List.mem_cons] at hmem
        rcases hmem with h0 | h0
        · cases h0
        · have hin := trace_idx rest opts wk2 w2 (Ev.called wk.idx) h0
          have hidx : evIdx (Ev.called wk.idx) = wk.idx := rfl
          rw [hidx] at hin
          simp only [List.map_cons, List.mem_cons] at hfresh
          push_neg at hfresh
          rcases List.mem_cons.mp hin with h1 | h1
          · exact hfresh.1 h1
          · exact hfresh.2 h1
      · obtain ⟨st, w', hset, hres', _, _⟩ :=
          run_accounting rest opts wk2 w2 (xs ++ [JVal.vnull]) hd hg2 hres2'
        refine ⟨st, w', settledVals (runPending opts wk2 rest w2).trace, hset, ?_⟩
        rw [hres', List.append_assoc]
        rfl

/-- C6 witness: a disabled step at position 0 followed by an enabled step at
position 1 — skip event first, no invocation event for position 0, and the
null marker sits in slot 0 of the settled results. -/
theorem c6_witness :
    (∃ tr2, (runPending opts0 wit6wk [wit6wk2] (initW [wit6wk, wit6wk2])).trace =
      Ev.skipped wit6wk.idx :: tr2) ∧
    Ev.called wit6wk.idx ∉ (runPending opts0 wit6wk [wit6wk2] (initW [wit6wk, wit6wk2])).trace ∧
    (∃ st w' ys, (runPending opts0 wit6wk [wit6wk2] (initW [wit6wk, wit6wk2])).settled =
        some (st, w') ∧
      getProp w'.props "result" = JVal.varr ([] ++ JVal.vnull :: ys)) :=
  c6_skip_semantics opts0 wit6wk [wit6wk2] (initW [wit6wk, wit6wk2]) []
    rfl rfl rfl (fun _ h => nomatch h) (by decide)

/-- C3 counterexample: a single rejecting step — the run settles failed, but
the results sequence is empty: the failing step contributes NO entry, so the
length is not "up to and including the failing step" (which would be 1). -/
theorem c3_counterexample :
    (Work.works cex3Specs opts0).settle = some (Settlement.rejected (JVal.vstr "boom")) ∧
    ((Work.works cex3Specs opts0).finalProps.map (fun p => getProp p "result")
      = some (JVal.varr [])) ∧
    cex3Specs.length = 1 :=
  ⟨rfl, rfl, rfl⟩

/-- C3 (amended): for every non-empty step list that normalizes with
collision-free names and runs without a completion hook failure, the results
sequence after settlement holds exactly the values of the settled steps (one
entry per step that ran or was skipped): its length equals the total step
count when no step fails, and is strictly below the total when a step fails
(the failing step contributes no entry). -/
theorem c3_results_accounting (specs : List RawSpec) (opts : Options) (ws : List Worker)
    (hd : DoneOk opts)
    (hb : (buildWorkers specs 0).fst = Except.ok ws)
    (hg : NamesGood (buildNames ws) = true)
    (hne : ws ≠ []) :
    ∃ st w', (Work.works specs opts).result = WorksResult.settled st w' ∧
      getProp w'.props "result" = JVal.varr (settledVals (Work.works specs opts).trace) ∧
      (hasFail (Work.works specs opts).trace = false →
        (settledVals (Work.works specs opts).trace).length = specs.length) ∧
      (hasFail (Work.works specs opts).trace = true →
        (settledVals (Work.works specs opts).trace).length < specs.length) := by
  have hlen := buildWorkers_ok_length specs 0 ws hb
  have hbp : buildWorkers specs 0 = (Except.ok ws, (buildWorkers specs 0).snd) := by
    rw [← hb]
  cases ws with
  | nil => exact absurd rfl hne
  | cons wk rest =>
      obtain ⟨st, w', hset, hres', hnf, hf⟩ :=
        run_accounting rest opts wk (initW (wk :: rest)) [] hd hg rfl
      have hw := works_eq_run specs opts wk rest ((buildWorkers specs 0).snd) st w' hbp hset
      rw [hw]
      refine ⟨st, w', rfl, ?_, ?_, ?_⟩
      · rw [hres']
        rfl
      · intro h
        obtain ⟨_, hl⟩ := hnf h
        rw [hl, ← hlen]
        rfl
      · intro h
        obtain ⟨hl, _⟩ := hf h
        rw [← hlen]
        exact Nat.lt_succ_of_le hl

/-- C3 witness: three steps with the middle one skipped — the run settles
with three entries `[1, null, 3]`. -/
theorem c3_witness :
    (∃ st w', (Work.works wit3Specs opts0).result = WorksResult.settled st w' ∧
      getProp w'.props "result" = JVal.varr (settledVals (Work.works wit3Specs opts0).trace) ∧
      (hasFail (Work.works wit3Specs opts0).trace = false →
        (settledVals (Work.works wit3Specs opts0).trace).length = wit3Specs.length) ∧
      (hasFail (Work.works wit3Specs opts0).trace = true →
        (settledVals (Work.works wit3Specs opts0).trace).length < wit3Specs.length)) ∧
    settledVals (Work.works wit3Specs opts0).trace =
      [JVal.vnum 1, JVal.vnull, JVal.vnum 3] ∧
    hasFail (Work.works wit3Specs opts0).trace = false :=
  ⟨c3_results_accounting wit3Specs opts0 wit3WS (fun _ h => nomatch h) rfl rfl
     (fun h => List.noConfusion h),
   rfl, rfl⟩

/-- C5 counterexample: `[h1 ↦ 1, ["rres", h2, false-pred]]` — all steps
complete (the second by skip), the last value produced by a handler is 1,
yet the run settles with `null`: the skipped step's name `rres` collides
with the register holding the resolution value and the skip marker is
written over it. -/
theorem c5_counterexample :
    (Work.works cex5Specs opts0).settle = some (Settlement.resolved JVal.vnull) ∧
    lastD (producedVals (Work.works cex5Specs opts0).trace) JVal.vundef = JVal.vnum 1 ∧
    JVal.vnull ≠ JVal.vnum 1 :=
  ⟨rfl, rfl, fun h => JVal.noConfusion h⟩

/-- C5 (amended): for every run that normalizes with collision-free names,
whose completion hook never fails, and in which all steps complete (no
failure event — each step settles by value or by skip), the run settles
successfully with the last value actually produced by a handler invocation
(not the skip marker; `undefined` when no handler ever produced a value). -/
theorem c5_last_produced_value (specs : List RawSpec) (opts : Options) (ws : List Worker)
    (hd : DoneOk opts)
    (hb : (buildWorkers specs 0).fst = Except.ok ws)
    (hg : NamesGood (buildNames ws) = true)
    (hnf : hasFail (Work.works specs opts).trace = false) :
    ∃ w', (Work.works specs opts).result =
      WorksResult.settled
        (Settlement.resolved (lastD (producedVals (Work.works specs opts).trace) JVal.vundef))
        w' := by
  have hbp : buildWorkers specs 0 = (Except.ok ws, (buildWorkers specs 0).snd) := by
    rw [← hb]
  cases ws with
  | nil =>
      rw [works_empty_eq specs opts ((buildWorkers specs 0).snd) hd hbp]
      exact ⟨initW ([] : List Worker), rfl⟩
  | cons wk rest =>
      obtain ⟨st, w', hset, _, hnfacc, _⟩ :=
        run_accounting rest opts wk (initW (wk :: rest)) [] hd hg rfl
      have hw := works_eq_run specs opts wk rest ((buildWorkers specs 0).snd) st w' hbp hset
      rw [hw] at hnf ⊢
      obtain ⟨hst, _⟩ := hnfacc hnf
      refine ⟨w', ?_⟩
      rw [hst]
      rfl

/-- C5 witness: the spec's skip scenario `run([h1, [h2, pred]])` with `h1`
resolving 1 and `pred = w => w.getRes(0) < 1` — the second step is skipped
and the run settles with the last produced value, 1. -/
theorem c5_witness :
    (∃ w', (Work.works scen5Specs opts0).result =
      WorksResult.settled
        (Settlement.resolved (lastD (producedVals (Work.works scen5Specs opts0).trace) JVal.vundef))
        w') ∧
    lastD (producedVals (Work.works scen5Specs opts0).trace) JVal.vundef = JVal.vnum 1 ∧
    (Work.works scen5Specs opts0).trace =
      [Ev.called 0, Ev.produced 0 (JVal.vnum 1), Ev.skipped 1] :=
  ⟨c5_last_produced_value scen5Specs opts0 scen5WS (fun _ h => nomatch h) rfl rfl rfl,
   rfl, rfl⟩
